import Mathlib

/-!
Verification of the workflow-merging logic of `prepare-build.py` from the
`tracy-builds` repository.

The script fetches two upstream GitHub Actions workflow files (`build.yml`,
`linux.yml`), merges their jobs into one combined workflow document with
document-specific key prefixes, rewrites checkout steps, appends per-platform
artifact-upload steps and a final release job, writes the result, and runs a
sequence of git commands.  The development below embeds:

* the YAML data model the script manipulates (jobs as ordered associative
  lists, mirroring Python dict insertion-order semantics),
* `modify_job_checkouts`, `add_artifact_upload` and
  `generate_combined_workflow` as pure functions,
* the observable effect trace of `main` (git commands, HTTP fetches, file
  writes) as a function from the externally supplied outcomes (fetch results,
  git query answers) to the list of issued effects plus the exit code.
-/

namespace TracyBuilds

/-- Python substring test `pat in s`, performed on the character list:
true when `pat` occurs as a contiguous infix. -/
def charsContains (pat : List Char) : List Char → Bool
  | [] => pat.isEmpty
  | c :: rest => pat.isPrefixOf (c :: rest) || charsContains pat rest

/-- Python `pat in s` for strings. -/
def strContains (s pat : String) : Bool := charsContains pat.data s.data

/-- Python `str.lower()`. -/
def strToLower (s : String) : String := String.mk (s.data.map Char.toLower)

/-- Python `str(xs)` for a list of plain strings without embedded quotes or
escapes, e.g. `str(["macos-13"])` is the text `[` + quoted items + `]`
(items single-quoted, comma-space separated).  The script applies `str` to
`matrix.get("os", [])` before substring-testing it. -/
def pyStrList (xs : List String) : String :=
  "[" ++ String.intercalate ", " (xs.map (fun s => "\x27" ++ s ++ "\x27")) ++ "]"

/-- A workflow step.  The script inspects the `uses` field and overwrites the
`with` mapping of checkout steps; all other keys are opaque data carried in
`other` (e.g. `name`, `run`). -/
structure Step where
  uses : Option String
  withArgs : Option (List (String × String))
  other : List (String × String)
deriving DecidableEq

/-- A job definition.  The script reads `steps`, `runs-on`,
`strategy.matrix.os` (collapsed here to the list the code defaults to), the
presence of a `container` key, and writes `needs` on the release job; all
other keys are opaque data carried in `other`. -/
structure Job where
  steps : Option (List Step)
  runsOn : Option String
  matrixOs : List String
  container : Option String
  needs : Option (List String)
  other : List (String × String)
deriving DecidableEq

/-- A fetched workflow document: an optional `jobs` mapping (ordered). -/
structure Workflow where
  jobs : Option (List (String × Job))
deriving DecidableEq

/-- The `ref` expression written into rewritten checkout steps: the
dispatch-input fallback expression embedding the single-quoted tag after
`github.event.inputs.tracy_tag ||`. -/
def checkoutRef (tracy_tag : String) : String :=
  "$\x7b\x7b github.event.inputs.tracy_tag || \x27" ++ tracy_tag ++ "\x27 \x7d\x7d"

/-- The `with` mapping written into rewritten checkout steps: exactly the
`repository` / `ref` pair. -/
def checkoutWith (tracy_tag : String) : List (String × String) :=
  [("repository", "wolfpld/tracy"), ("ref", checkoutRef tracy_tag)]

/-- The loop body of `modify_job_checkouts`: when the step has a `uses` field
containing `checkout`, replace its `with` mapping by exactly the
`repository` / `ref` pair. -/
def rewriteCheckoutStep (tracy_tag : String) (s : Step) : Step :=
  match s.uses with
  | some u =>
    if strContains u "checkout" then { s with withArgs := some (checkoutWith tracy_tag) }
    else s
  | none => s

/-- `modify_job_checkouts(job_config, tracy_tag)`: rewrite every checkout
step; a job without a `steps` field is returned unchanged. -/
def modify_job_checkouts (job_config : Job) (tracy_tag : String) : Job :=
  match job_config.steps with
  | none => job_config
  | some ss => { job_config with steps := some (ss.map (rewriteCheckoutStep tracy_tag)) }

/-- The `has_upload` check of `add_artifact_upload`:
`"upload-artifact" in str(step.get("uses", ""))` over the steps. -/
def hasUploadStep (ss : List Step) : Bool :=
  ss.any (fun s => strContains (s.uses.getD "") "upload-artifact")

/-- The newline-joined four-pattern artifact path used for macOS and Linux. -/
def unixArtifactPath : String :=
  "**/Tracy-release\n**/capture-release\n**/csvexport-release\n**/import-chrome-release"

/-- The platform classification of `add_artifact_upload`: artifact name and
path from `runs-on`, the matrix `os` list, the job name and the presence of a
`container` key (case-insensitive substring matching, in source order). -/
def classifyArtifact (job_config : Job) (job_name : String) : Option (String × String) :=
  let osType := job_config.runsOn.getD ""
  let mos := pyStrList job_config.matrixOs
  if strContains (strToLower osType) "windows" || strContains (strToLower mos) "windows" then
    some ("tracy-windows", "**/*.exe")
  else if strContains (strToLower osType) "macos" || strContains (strToLower mos) "macos" then
    some ("tracy-macos", unixArtifactPath)
  else if strContains (strToLower job_name) "linux" || job_config.container.isSome then
    some ("tracy-linux", unixArtifactPath)
  else
    none

/-- The upload step appended by `add_artifact_upload`. -/
def uploadStep (artifact_name artifact_path : String) : Step :=
  { uses := some "actions/upload-artifact@v4",
    withArgs := some [("name", artifact_name), ("path", artifact_path)],
    other := [("name", "Upload artifacts")] }

/-- `add_artifact_upload(job_config, job_name)`: append one platform-specific
upload step unless the job has no steps, already has an upload step, or
matches no platform rule. -/
def add_artifact_upload (job_config : Job) (job_name : String) : Job :=
  match job_config.steps with
  | none => job_config
  | some ss =>
    if hasUploadStep ss then job_config
    else
      match classifyArtifact job_config job_name with
      | some (an, ap) => { job_config with steps := some (ss ++ [uploadStep an ap]) }
      | none => job_config

/-- Python dict assignment `m[k] = v` on an insertion-ordered mapping:
an existing key keeps its position and gets the new value, a new key is
appended at the end. -/
def dictInsert (m : List (String × Job)) (k : String) (v : Job) : List (String × Job) :=
  if k ∈ m.map Prod.fst then
    m.map (fun p => if p.1 = k then (k, v) else p)
  else m ++ [(k, v)]

/-- The per-job transformation applied by `generate_combined_workflow` before
insertion: `modify_job_checkouts` then `add_artifact_upload`. -/
def transformJob (tracy_tag job_name : String) (j : Job) : Job :=
  add_artifact_upload (modify_job_checkouts j tracy_tag) job_name

/-- The jobs contributed by one fetched document: none when the document was
not fetched or its parse lacks a `jobs` field. -/
def jobsOfDoc : Option Workflow → List (String × Job)
  | some wf => wf.jobs.getD []
  | none => []

/-- One document-processing loop of `generate_combined_workflow`: insert each
job under `keyPfx + name`, transformed with `namePfx + name` as the job name
passed to `add_artifact_upload`. -/
def addDocJobs (keyPfx namePfx tracy_tag : String)
    (js : List (String × Job)) (acc : List (String × Job)) : List (String × Job) :=
  js.foldl
    (fun a p => dictInsert a (keyPfx ++ p.1) (transformJob tracy_tag (namePfx ++ p.1) p.2)) acc

/-- The combined jobs mapping before the release job is appended:
`build.yml` jobs under `tracy-` then `linux.yml` jobs under `tracy-linux-`
(the latter passing `linux-` + name as the job name for classification). -/
def jobsBeforeRelease (buildWf linuxWf : Option Workflow) (tracy_tag : String) :
    List (String × Job) :=
  addDocJobs "tracy-linux-" "linux-" tracy_tag (jobsOfDoc linuxWf)
    (addDocJobs "tracy-" "" tracy_tag (jobsOfDoc buildWf) [])

/-- The combined workflow document: workflow name, the `tracy_tag`
dispatch-input default, and the merged jobs mapping. -/
structure Combined where
  name : String
  dispatchInputDefault : String
  jobs : List (String × Job)
deriving DecidableEq

/-- `generate_combined_workflow(workflows, tracy_tag)`: merge the two
document jobs, then insert the release job (the `create-release` entry of
the local `create_release.yml`, here a parameter) under the fixed key
`create-release` with `needs` set to all job keys inserted so far. -/
def generate_combined_workflow (buildWf linuxWf : Option Workflow) (tracy_tag : String)
    (releaseTemplate : Job) : Combined :=
  let jb := jobsBeforeRelease buildWf linuxWf tracy_tag
  let rel := { releaseTemplate with needs := some (jb.map Prod.fst) }
  { name := "Combined Tracy Build",
    dispatchInputDefault := tracy_tag,
    jobs := dictInsert jb "create-release" rel }

/-- Modelled from the spec: evaluation of the dispatch-input fallback
expression by the GitHub Actions expression language, which is external to
the repository.  When the string has the fallback shape — the fixed head
`github.event.inputs.tracy_tag ||` followed by a single-quoted literal — the
result is the override input when supplied and non-empty, else the literal;
`none` when the string does not have that shape. -/
def evalRefExpr (override : Option String) (expr : String) : Option String :=
  let pre := ("$\x7b\x7b github.event.inputs.tracy_tag || \x27" : String)
  let suf := ("\x27 \x7d\x7d" : String)
  if pre.data.isPrefixOf expr.data && suf.data.isSuffixOf expr.data then
    let core := expr.data.drop pre.data.length
    let lit := String.mk (core.take (core.length - suf.data.length))
    match override with
    | some s => if s.data.isEmpty then some lit else some s
    | none => some lit
  else none

/-- The observable effects issued by the script, in order. -/
inductive Ev where
  | gitCheckoutMain
  | gitFetch (remote : String)
  | gitLsRemoteHeads (remote branch : String)
  | gitPushDelete (remote branch : String)
  | gitBranchList (branch : String)
  | gitBranchDeleteLocal (branch : String)
  | gitCheckoutNewBranch (branch : String)
  | httpGet (url : String)
  | saveWorkflowFile (path : String)
  | writeCombinedWorkflow (path : String)
  | gitConfigGetUserName
  | gitConfigSetUserName
  | gitConfigSetUserEmail
  | gitAdd (path : String)
  | gitCommit (message : String)
  | gitPush (remote branch : String)
deriving DecidableEq

/-- The parsed CLI arguments: positional tag, `--no-push`, `--remote`. -/
structure Args where
  tracy_tag : String
  no_push : Bool
  remote : String
deriving DecidableEq

/-- Answers of the external git queries `main` makes: whether `ls-remote`
reports the build branch, whether `git branch --list` reports it, and whether
`git config user.name` succeeds. -/
structure GitState where
  remoteBranchExists : Bool
  localBranchExists : Bool
  userNameConfigured : Bool
deriving DecidableEq

/-- The raw.githubusercontent.com URL of one upstream workflow file. -/
def rawWorkflowUrl (tracy_tag fileName : String) : String :=
  "https://raw.githubusercontent.com/wolfpld/tracy/" ++ tracy_tag
    ++ "/.github/workflows/" ++ fileName

/-- Effects of `fetch_tracy_workflows`: two HTTP GETs in order, each saved to
`tracy-workflows/` on success (`some`). -/
def fetch_tracy_workflows_events (tracy_tag : String)
    (buildWf linuxWf : Option Workflow) : List Ev :=
  [Ev.httpGet (rawWorkflowUrl tracy_tag "build.yml")]
    ++ (if buildWf.isSome then [Ev.saveWorkflowFile "tracy-workflows/build.yml"] else [])
    ++ [Ev.httpGet (rawWorkflowUrl tracy_tag "linux.yml")]
    ++ (if linuxWf.isSome then [Ev.saveWorkflowFile "tracy-workflows/linux.yml"] else [])

/-- Effects of `commit_and_push`: the user-identity configuration check,
two `git add`s, the commit, and — only when pushing — the final push, which
the source invokes as `git push origin <branch>` with the literal `origin`. -/
def commit_and_push_events (userNameConfigured : Bool) (branch tracy_tag : String)
    (push : Bool) : List Ev :=
  [Ev.gitConfigGetUserName]
    ++ (if userNameConfigured then [] else [Ev.gitConfigSetUserName, Ev.gitConfigSetUserEmail])
    ++ [Ev.gitAdd ".github/workflows/build-combined.yml", Ev.gitAdd "tracy-workflows/",
        Ev.gitCommit ("Add combined workflow for " ++ tracy_tag)]
    ++ (if push then [Ev.gitPush "origin" branch] else [])

/-- The effect trace and exit code of `main`, as a function of the parsed
arguments, the git query answers, and the two fetch outcomes: checkout of
`main`, remote branch bookkeeping (when pushing), local branch bookkeeping,
creation of the build branch, the two fetches; then either the early
`return 1` when both fetches failed, or the combined-workflow write followed
by `commit_and_push` and exit code 0. -/
def main_run (args : Args) (git : GitState) (buildWf linuxWf : Option Workflow) :
    List Ev × Nat :=
  let branch := "build-" ++ args.tracy_tag
  let shouldPush := !args.no_push
  let setup :=
    [Ev.gitCheckoutMain]
      ++ (if shouldPush then
            [Ev.gitFetch args.remote, Ev.gitLsRemoteHeads args.remote branch]
              ++ (if git.remoteBranchExists then [Ev.gitPushDelete args.remote branch] else [])
          else [])
      ++ [Ev.gitBranchList branch]
      ++ (if git.localBranchExists then [Ev.gitBranchDeleteLocal branch] else [])
      ++ [Ev.gitCheckoutNewBranch branch]
  let fetched := setup ++ fetch_tracy_workflows_events args.tracy_tag buildWf linuxWf
  if buildWf.isNone && linuxWf.isNone then
    (fetched, 1)
  else
    (fetched ++ [Ev.writeCombinedWorkflow ".github/workflows/build-combined.yml"]
       ++ commit_and_push_events git.userNameConfigured branch args.tracy_tag shouldPush, 0)

/-- A job with no fields set, used as a concrete instance in witnesses. -/
def emptyJob : Job := ⟨none, none, [], none, none, []⟩

/-- The condition of the checkout rewrite:
`"uses" in step and "checkout" in step["uses"]`. -/
def isCheckoutStep (s : Step) : Bool := strContains (s.uses.getD "") "checkout"

/-- The `git push <remote> <branch>` events of a trace (the final push;
remote-branch deletions are a separate constructor). -/
def pushEvents (t : List Ev) : List Ev :=
  t.filter fun e => match e with | Ev.gitPush _ _ => true | _ => false

/-- The `git commit` events of a trace. -/
def commitEvents (t : List Ev) : List Ev :=
  t.filter fun e => match e with | Ev.gitCommit _ => true | _ => false

/-- The combined-workflow file writes of a trace. -/
def writeCombinedEvents (t : List Ev) : List Ev :=
  t.filter fun e => match e with | Ev.writeCombinedWorkflow _ => true | _ => false

/-- Concrete arguments for the total-fetch-failure run. -/
def argsC3 : Args := ⟨"v0.12.2", false, "origin"⟩

/-- Concrete git query answers for the total-fetch-failure run. -/
def gitC3 : GitState := ⟨false, false, true⟩

/-- Concrete arguments with an overridden remote name. -/
def argsC4 : Args := ⟨"v0.12.2", false, "upstream"⟩

/-- Concrete git query answers with an existing remote branch. -/
def gitC4 : GitState := ⟨true, false, true⟩

/-- A concrete checkout step with pre-existing configuration. -/
def checkoutStepEx : Step :=
  ⟨some "actions/checkout@v4", some [("submodules", "true")], [("name", "Checkout")]⟩

/-- A concrete job holding one checkout step. -/
def jobEx : Job := ⟨some [checkoutStepEx], none, [], none, none, []⟩

/-- A concrete Windows job. -/
def winJob : Job := ⟨some [], some "windows-latest", [], none, none, []⟩

/-- A concrete macOS matrix job. -/
def macJob : Job := ⟨some [], none, ["macos-13"], none, none, []⟩

/-- A concrete job with steps but no platform information of its own. -/
def bareStepsJob : Job := ⟨some [], none, [], none, none, []⟩

/-- A concrete job that already carries an upload step. -/
def upJob : Job := ⟨some [uploadStep "x" "y"], none, [], none, none, []⟩

/-- A concrete one-job workflow document. -/
def oneJobWf : Workflow := ⟨some [("alpha", emptyJob)]⟩

/-! ### String lemmas -/

lemma strExt {a b : String} (h : a.data = b.data) : a = b := by
  cases a; cases b; exact congrArg String.mk h

lemma strData_append (s t : String) : (s ++ t).data = s.data ++ t.data := by
  cases s; cases t; rfl

lemma strAppend_left_cancel {p a b : String} (h : p ++ a = p ++ b) : a = b := by
  apply strExt
  have hd : p.data ++ a.data = p.data ++ b.data := by
    rw [← strData_append, ← strData_append, h]
  exact List.append_cancel_left hd

lemma strAppend_assoc (a b c : String) : a ++ b ++ c = a ++ (b ++ c) := by
  apply strExt
  rw [strData_append, strData_append, strData_append, strData_append, List.append_assoc]

lemma tracyLinuxKey (m : String) : "tracy-linux-" ++ m = "tracy-" ++ ("linux-" ++ m) := by
  have h : ("tracy-linux-" : String) = "tracy-" ++ "linux-" := by decide
  rw [← strAppend_assoc, ← h]

lemma tracyKey_ne_create (s : String) : "tracy-" ++ s ≠ "create-release" := by
  intro h
  have hd : ("tracy-" ++ s).data = ("create-release" : String).data := by rw [h]
  rw [strData_append] at hd
  have h1 : ("tracy-" : String).data = ['t', 'r', 'a', 'c', 'y', '-'] := rfl
  have h2 : ("create-release" : String).data
      = ['c', 'r', 'e', 'a', 't', 'e', '-', 'r', 'e', 'l', 'e', 'a', 's', 'e'] := rfl
  rw [h1, h2] at hd
  simp only [List.cons_append, List.cons.injEq] at hd
  exact absurd hd.1 (by decide)

/-! ### Lemmas about `dictInsert` and the document-processing folds -/

lemma keys_map_update (m : List (String × Job)) (k : String) (v : Job) :
    (m.map (fun p => if p.1 = k then (k, v) else p)).map Prod.fst = m.map Prod.fst := by
  induction m with
  | nil => rfl
  | cons p t ih =>
    simp only [List.map_cons, ih, List.cons.injEq, and_true]
    by_cases h : p.1 = k
    · simp [h]
    · simp [h]

lemma dictInsert_of_not_mem {m : List (String × Job)} {k : String} (v : Job)
    (h : k ∉ m.map Prod.fst) : dictInsert m k v = m ++ [(k, v)] := by
  simp [dictInsert, h]

lemma keys_dictInsert_of_mem {m : List (String × Job)} {k : String} (v : Job)
    (h : k ∈ m.map Prod.fst) :
    (dictInsert m k v).map Prod.fst = m.map Prod.fst := by
  unfold dictInsert
  rw [if_pos h, keys_map_update]

lemma mem_keys_dictInsert {m : List (String × Job)} {k a : String} {v : Job} :
    a ∈ (dictInsert m k v).map Prod.fst ↔ a ∈ m.map Prod.fst ∨ a = k := by
  by_cases h : k ∈ m.map Prod.fst
  · rw [keys_dictInsert_of_mem v h]
    constructor
    · exact Or.inl
    · rintro (ha | rfl)
      · exact ha
      · exact h
  · rw [dictInsert_of_not_mem v h]
    simp

lemma mem_dictInsert {m : List (String × Job)} {k : String} {v : Job} {q : String × Job}
    (h : q ∈ dictInsert m k v) : q ∈ m ∨ q = (k, v) := by
  unfold dictInsert at h
  split at h
  · rcases List.mem_map.mp h with ⟨p, hp, heq⟩
    by_cases hk : p.1 = k
    · rw [if_pos hk] at heq
      exact Or.inr heq.symm
    · rw [if_neg hk] at heq
      exact Or.inl (heq ▸ hp)
  · rcases List.mem_append.mp h with h' | h'
    · exact Or.inl h'
    · exact Or.inr (by simpa using h')

lemma foldl_dictInsert_append (f : String → String) (g : String → Job → Job)
    (js : List (String × Job)) : ∀ acc : List (String × Job),
    (∀ p ∈ js, f p.1 ∉ acc.map Prod.fst) →
    (js.map (fun p => f p.1)).Nodup →
    js.foldl (fun a p => dictInsert a (f p.1) (g p.1 p.2)) acc
      = acc ++ js.map (fun p => (f p.1, g p.1 p.2)) := by
  induction js with
  | nil => intro acc _ _; simp
  | cons p rest ih =>
    intro acc hfresh hnd
    simp only [List.map_cons, List.nodup_cons] at hnd
    simp only [List.foldl_cons, List.map_cons]
    rw [dictInsert_of_not_mem _ (hfresh p (by simp))]
    rw [ih (acc ++ [(f p.1, g p.1 p.2)]) ?_ hnd.2]
    · simp
    · intro q hq hmem
      simp only [List.map_append, List.mem_append, List.map_cons, List.map_nil,
        List.mem_singleton] at hmem
      rcases hmem with h' | h'
      · exact hfresh q (by simp [hq]) h'
      · exact hnd.1 (h' ▸ List.mem_map_of_mem (fun r => f r.1) hq)

lemma mem_keys_foldl_dictInsert (f : String → String) (g : String → Job → Job)
    (js : List (String × Job)) : ∀ (acc : List (String × Job)) (a : String),
    (a ∈ (js.foldl (fun a p => dictInsert a (f p.1) (g p.1 p.2)) acc).map Prod.fst
      ↔ a ∈ acc.map Prod.fst ∨ ∃ p ∈ js, a = f p.1) := by
  induction js with
  | nil => intro acc a; simp
  | cons p rest ih =>
    intro acc a
    simp only [List.foldl_cons]
    rw [ih]
    rw [mem_keys_dictInsert]
    simp only [List.mem_cons]
    constructor
    · rintro ((h | h) | h)
      · exact Or.inl h
      · exact Or.inr ⟨p, Or.inl rfl, h⟩
      · rcases h with ⟨q, hq, rfl⟩
        exact Or.inr ⟨q, Or.inr hq, rfl⟩
    · rintro (h | ⟨q, hq | hq, rfl⟩)
      · exact Or.inl (Or.inl h)
      · exact Or.inl (Or.inr (by rw [hq]))
      · exact Or.inr ⟨q, hq, rfl⟩

lemma mem_foldl_dictInsert (f : String → String) (g : String → Job → Job)
    (js : List (String × Job)) : ∀ (acc : List (String × Job)) (q : String × Job),
    q ∈ js.foldl (fun a p => dictInsert a (f p.1) (g p.1 p.2)) acc →
    q ∈ acc ∨ ∃ p ∈ js, q = (f p.1, g p.1 p.2) := by
  induction js with
  | nil => intro acc q h; exact Or.inl (by simpa using h)
  | cons p rest ih =>
    intro acc q h
    simp only [List.foldl_cons] at h
    rcases ih _ q h with h' | ⟨r, hr, rfl⟩
    · rcases mem_dictInsert h' with h'' | rfl
      · exact Or.inl h''
      · exact Or.inr ⟨p, by simp, rfl⟩
    · exact Or.inr ⟨r, by simp [hr], rfl⟩

lemma addDocJobs_eq_append (kp np tag : String) (js acc : List (String × Job))
    (hfresh : ∀ p ∈ js, kp ++ p.1 ∉ acc.map Prod.fst)
    (hnd : (js.map (fun p => kp ++ p.1)).Nodup) :
    addDocJobs kp np tag js acc
      = acc ++ js.map (fun p => (kp ++ p.1, transformJob tag (np ++ p.1) p.2)) :=
  foldl_dictInsert_append (fun n => kp ++ n) (fun n j => transformJob tag (np ++ n) j)
    js acc hfresh hnd

lemma mem_keys_addDocJobs (kp np tag : String) (js acc : List (String × Job)) (a : String) :
    a ∈ (addDocJobs kp np tag js acc).map Prod.fst
      ↔ a ∈ acc.map Prod.fst ∨ ∃ p ∈ js, a = kp ++ p.1 :=
  mem_keys_foldl_dictInsert (fun n => kp ++ n) (fun n j => transformJob tag (np ++ n) j)
    js acc a

lemma mem_addDocJobs (kp np tag : String) (js acc : List (String × Job)) (q : String × Job)
    (h : q ∈ addDocJobs kp np tag js acc) :
    q ∈ acc ∨ ∃ p ∈ js, q = (kp ++ p.1, transformJob tag (np ++ p.1) p.2) :=
  mem_foldl_dictInsert (fun n => kp ++ n) (fun n j => transformJob tag (np ++ n) j)
    js acc q h

/-! ### Shape lemmas for the per-job rewrites -/

lemma modify_shape (j : Job) (tag : String) :
    modify_job_checkouts j tag = j
    ∨ ∃ ss, j.steps = some ss
        ∧ modify_job_checkouts j tag
          = { j with steps := some (ss.map (rewriteCheckoutStep tag)) } := by
  unfold modify_job_checkouts
  split
  · exact Or.inl rfl
  · next ss heq => exact Or.inr ⟨ss, heq, rfl⟩

lemma add_shape (j : Job) (jobName : String) :
    add_artifact_upload j jobName = j
    ∨ ∃ ss an ap, j.steps = some ss
        ∧ add_artifact_upload j jobName = { j with steps := some (ss ++ [uploadStep an ap]) } := by
  unfold add_artifact_upload
  split
  · exact Or.inl rfl
  · next ss heq =>
    split
    · exact Or.inl rfl
    · split
      · next an ap hc => exact Or.inr ⟨ss, an, ap, heq, rfl⟩
      · exact Or.inl rfl

lemma transformJob_fields (tag jobName : String) (j : Job) :
    (transformJob tag jobName j).runsOn = j.runsOn
    ∧ (transformJob tag jobName j).matrixOs = j.matrixOs
    ∧ (transformJob tag jobName j).container = j.container
    ∧ (transformJob tag jobName j).needs = j.needs
    ∧ (transformJob tag jobName j).other = j.other := by
  unfold transformJob
  rcases add_shape (modify_job_checkouts j tag) jobName with ha | ⟨ss2, an, ap, _, ha⟩ <;>
    rw [ha] <;>
    rcases modify_shape j tag with hm | ⟨ss1, _, hm⟩ <;> rw [hm] <;> simp

lemma modify_of_steps (j : Job) (tag : String) {ss : List Step} (h : j.steps = some ss) :
    modify_job_checkouts j tag = { j with steps := some (ss.map (rewriteCheckoutStep tag)) } := by
  unfold modify_job_checkouts
  rw [h]

lemma rewriteCheckoutStep_uses (tag : String) (s : Step) :
    (rewriteCheckoutStep tag s).uses = s.uses := by
  rcases s with ⟨u, w, o⟩
  cases u with
  | none => rfl
  | some u' =>
    simp only [rewriteCheckoutStep]
    split <;> rfl

lemma rewriteCheckoutStep_other (tag : String) (s : Step) :
    (rewriteCheckoutStep tag s).other = s.other := by
  rcases s with ⟨u, w, o⟩
  cases u with
  | none => rfl
  | some u' =>
    simp only [rewriteCheckoutStep]
    split <;> rfl

lemma rewriteCheckoutStep_of_not_checkout (tag : String) (s : Step)
    (h : isCheckoutStep s = false) : rewriteCheckoutStep tag s = s := by
  rcases s with ⟨u, w, o⟩
  cases u with
  | none => rfl
  | some u' =>
    simp only [isCheckoutStep, Option.getD] at h
    simp only [rewriteCheckoutStep, h]
    simp [h]

lemma add_steps (j : Job) (jobName : String) {ss : List Step} (h : j.steps = some ss) :
    ∃ extra : List Step, extra.length ≤ 1
      ∧ (add_artifact_upload j jobName).steps = some (ss ++ extra) := by
  by_cases hU : hasUploadStep ss
  · exact ⟨[], by simp, by simp [add_artifact_upload, h, hU]⟩
  · cases hC : classifyArtifact j jobName with
    | none => exact ⟨[], by simp, by simp [add_artifact_upload, h, hU, hC]⟩
    | some pr =>
      obtain ⟨an, ap⟩ := pr
      exact ⟨[uploadStep an ap], by simp, by simp [add_artifact_upload, h, hU, hC]⟩

lemma transformJob_steps (tag jobName : String) (j : Job) {ss : List Step}
    (h : j.steps = some ss) :
    ∃ extra : List Step, extra.length ≤ 1
      ∧ (transformJob tag jobName j).steps
        = some (ss.map (rewriteCheckoutStep tag) ++ extra) := by
  unfold transformJob
  rw [modify_of_steps j tag h]
  exact add_steps _ jobName rfl

lemma transformJob_of_no_steps (tag jobName : String) (j : Job) (h : j.steps = none) :
    transformJob tag jobName j = j := by
  unfold transformJob
  have hm : modify_job_checkouts j tag = j := by
    unfold modify_job_checkouts
    rw [h]
  rw [hm]
  unfold add_artifact_upload
  rw [h]

lemma rewriteCheckoutStep_idem (tag : String) (s : Step) :
    rewriteCheckoutStep tag (rewriteCheckoutStep tag s) = rewriteCheckoutStep tag s := by
  rcases s with ⟨u, w, o⟩
  cases u with
  | none => rfl
  | some u' =>
    by_cases h : strContains u' "checkout"
    · simp [rewriteCheckoutStep, h]
    · simp [rewriteCheckoutStep, h]

/-! ### Claim theorems: the per-job rewrites -/

/-- C5: `modify_job_checkouts` replaces the `with` block of every step whose
action reference contains `checkout` by exactly the two fields `repository`
(the fixed upstream repository) and `ref` (the dispatch-input fallback
expression), discards any pre-existing configuration, leaves non-checkout
steps and steps-less jobs untouched, and with tag `v0.12.2` and no override
input the rewritten ref expression evaluates to `v0.12.2`. -/
theorem C5_checkout_rewrite (j : Job) (tag : String) :
    (j.steps = none → modify_job_checkouts j tag = j)
    ∧ (∀ ss, j.steps = some ss →
        (modify_job_checkouts j tag).steps = some (ss.map (rewriteCheckoutStep tag))
        ∧ ∀ s ∈ ss,
            (isCheckoutStep s = true →
              rewriteCheckoutStep tag s = { s with withArgs := some (checkoutWith tag) })
            ∧ (isCheckoutStep s = false → rewriteCheckoutStep tag s = s))
    ∧ evalRefExpr none (checkoutRef "v0.12.2") = some "v0.12.2" := by
  refine ⟨?_, ?_, by decide⟩
  · intro h
    unfold modify_job_checkouts
    rw [h]
  · intro ss h
    refine ⟨by rw [modify_of_steps j tag h], ?_⟩
    intro s _
    refine ⟨?_, rewriteCheckoutStep_of_not_checkout tag s⟩
    intro hc
    rcases s with ⟨u, w, o⟩
    cases u with
    | none =>
      simp only [isCheckoutStep, Option.getD_none] at hc
      exact absurd hc (by decide)
    | some u' =>
      simp only [isCheckoutStep, Option.getD_some] at hc
      simp [rewriteCheckoutStep, hc]

/-- Witness for C5 at a concrete job holding one checkout step with
pre-existing configuration. -/
theorem C5_witness :
    (modify_job_checkouts jobEx "v0.12.2").steps
      = some [{ checkoutStepEx with withArgs := some (checkoutWith "v0.12.2") }]
    ∧ evalRefExpr none (checkoutRef "v0.12.2") = some "v0.12.2" := by
  have h := C5_checkout_rewrite jobEx "v0.12.2"
  have h2 := h.2.1 [checkoutStepEx] rfl
  have h3 := (h2.2 checkoutStepEx (by simp)).1 (by decide)
  refine ⟨?_, h.2.2⟩
  rw [h2.1]
  simp only [List.map_cons, List.map_nil, h3]

/-- C6: the checkout rewrite is idempotent — applying `modify_job_checkouts`
twice with the same tag yields the same job as applying it once. -/
theorem C6_checkout_rewrite_idempotent (j : Job) (tag : String) :
    modify_job_checkouts (modify_job_checkouts j tag) tag = modify_job_checkouts j tag := by
  rcases modify_shape j tag with hm | ⟨ss, _, hm⟩
  · rw [hm]
    exact hm
  · have h2 : (modify_job_checkouts j tag).steps = some (ss.map (rewriteCheckoutStep tag)) := by
      rw [hm]
    rw [modify_of_steps _ tag h2, hm]
    have hmap : (ss.map (rewriteCheckoutStep tag)).map (rewriteCheckoutStep tag)
        = ss.map (rewriteCheckoutStep tag) := by
      induction ss with
      | nil => rfl
      | cons s t ih => simp [rewriteCheckoutStep_idem, ih]
    rw [hmap]

/-- C8: a fetched document whose parse lacks a `jobs` field contributes zero
jobs and behaves exactly like an unfetched document in
`generate_combined_workflow`, with no error. -/
theorem C8_missing_jobs_field (b l : Option Workflow) (tag : String) (rel : Job) :
    jobsOfDoc (some ⟨none⟩) = []
    ∧ generate_combined_workflow (some ⟨none⟩) l tag rel
        = generate_combined_workflow none l tag rel
    ∧ generate_combined_workflow b (some ⟨none⟩) tag rel
        = generate_combined_workflow b none tag rel :=
  ⟨rfl, rfl, rfl⟩

/-- C9: the merge carries everything not targeted by a rewrite through
unchanged — all top-level job fields other than `steps`, the order of the
steps, and the `uses` and remaining fields of each step; non-checkout steps are
byte-identical, and at most one upload step is appended at the end. -/
theorem C9_merge_frame (j : Job) (tag jobName : String) :
    ((transformJob tag jobName j).runsOn = j.runsOn
      ∧ (transformJob tag jobName j).matrixOs = j.matrixOs
      ∧ (transformJob tag jobName j).container = j.container
      ∧ (transformJob tag jobName j).needs = j.needs
      ∧ (transformJob tag jobName j).other = j.other)
    ∧ (j.steps = none → transformJob tag jobName j = j)
    ∧ (∀ ss, j.steps = some ss →
        ∃ extra : List Step, extra.length ≤ 1
          ∧ (transformJob tag jobName j).steps
            = some (ss.map (rewriteCheckoutStep tag) ++ extra)
          ∧ ∀ s ∈ ss, (rewriteCheckoutStep tag s).uses = s.uses
              ∧ (rewriteCheckoutStep tag s).other = s.other
              ∧ (isCheckoutStep s = false → rewriteCheckoutStep tag s = s)) := by
  refine ⟨transformJob_fields tag jobName j, transformJob_of_no_steps tag jobName j, ?_⟩
  intro ss h
  obtain ⟨extra, hlen, hsteps⟩ := transformJob_steps tag jobName j h
  exact ⟨extra, hlen, hsteps, fun s _ =>
    ⟨rewriteCheckoutStep_uses tag s, rewriteCheckoutStep_other tag s,
     rewriteCheckoutStep_of_not_checkout tag s⟩⟩

/-- Witness for C9 at a concrete one-step job. -/
theorem C9_witness :
    (transformJob "v0.12.2" "win" jobEx).needs = jobEx.needs
    ∧ ∃ extra : List Step, extra.length ≤ 1
        ∧ (transformJob "v0.12.2" "win" jobEx).steps
          = some ([checkoutStepEx].map (rewriteCheckoutStep "v0.12.2") ++ extra) := by
  obtain ⟨hf, _, h3⟩ := C9_merge_frame jobEx "v0.12.2" "win"
  obtain ⟨extra, hlen, hsteps, _⟩ := h3 [checkoutStepEx] rfl
  exact ⟨hf.2.2.2.1, extra, hlen, hsteps⟩

/-- C10: artifact-upload insertion is idempotent — the appended step uses
`actions/upload-artifact@v4`, which the existing-upload check detects on the
second application, so at most one upload step is ever appended. -/
theorem C10_artifact_upload_idempotent (j : Job) (jobName : String) :
    add_artifact_upload (add_artifact_upload j jobName) jobName
      = add_artifact_upload j jobName := by
  rcases hs : j.steps with _ | ss
  · have h1 : add_artifact_upload j jobName = j := by
      unfold add_artifact_upload
      rw [hs]
    rw [h1]
    exact h1
  · by_cases hU : hasUploadStep ss
    · have h1 : add_artifact_upload j jobName = j := by
        unfold add_artifact_upload
        rw [hs]
        simp [hU]
      rw [h1]
      exact h1
    · cases hC : classifyArtifact j jobName with
      | none =>
        have h1 : add_artifact_upload j jobName = j := by
          unfold add_artifact_upload
          rw [hs]
          simp [hU, hC]
        rw [h1]
        exact h1
      | some pr =>
        obtain ⟨an, ap⟩ := pr
        have h1 : add_artifact_upload j jobName
            = { j with steps := some (ss ++ [uploadStep an ap]) } := by
          unfold add_artifact_upload
          rw [hs]
          simp [hU, hC]
        rw [h1]
        have hstr : strContains "actions/upload-artifact@v4" "upload-artifact" = true := by
          decide
        have hU2 : hasUploadStep (ss ++ [uploadStep an ap]) = true := by
          unfold hasUploadStep
          rw [List.any_append]
          simp [uploadStep, hstr]
        simp [add_artifact_upload, hU2]

/-! ### Lemmas about the combined jobs mapping -/

lemma strAppend_left_inj (p : String) : Function.Injective (fun s => p ++ s) :=
  fun _ _ h => strAppend_left_cancel h

lemma keys_jobsBeforeRelease (b l : Option Workflow) (tag : String) {a : String}
    (h : a ∈ (jobsBeforeRelease b l tag).map Prod.fst) : ∃ s, a = "tracy-" ++ s := by
  unfold jobsBeforeRelease at h
  rcases (mem_keys_addDocJobs _ _ _ _ _ _).mp h with h0 | ⟨p, _, rfl⟩
  · rcases (mem_keys_addDocJobs _ _ _ _ _ _).mp h0 with h1 | ⟨p, _, rfl⟩
    · simp at h1
    · exact ⟨p.1, rfl⟩
  · exact ⟨"linux-" ++ p.1, tracyLinuxKey p.1⟩

lemma create_release_not_mem (b l : Option Workflow) (tag : String) :
    "create-release" ∉ (jobsBeforeRelease b l tag).map Prod.fst := by
  intro h
  rcases keys_jobsBeforeRelease b l tag h with ⟨s, hs⟩
  exact tracyKey_ne_create s hs.symm

lemma generate_jobs_eq (b l : Option Workflow) (tag : String) (rel : Job) :
    (generate_combined_workflow b l tag rel).jobs
      = jobsBeforeRelease b l tag
        ++ [("create-release",
            { rel with needs := some ((jobsBeforeRelease b l tag).map Prod.fst) })] :=
  dictInsert_of_not_mem _ (create_release_not_mem b l tag)

lemma jobsBeforeRelease_keys_nil_iff (b l : Option Workflow) (tag : String) :
    (jobsBeforeRelease b l tag).map Prod.fst = []
      ↔ jobsOfDoc b = [] ∧ jobsOfDoc l = [] := by
  constructor
  · intro h
    constructor
    · cases hb : jobsOfDoc b with
      | nil => rfl
      | cons p t =>
        exfalso
        have hmem : ("tracy-" ++ p.1) ∈ (jobsBeforeRelease b l tag).map Prod.fst := by
          unfold jobsBeforeRelease
          rw [mem_keys_addDocJobs]
          left
          rw [mem_keys_addDocJobs]
          right
          exact ⟨p, by rw [hb]; simp, rfl⟩
        rw [h] at hmem
        simp at hmem
    · cases hl : jobsOfDoc l with
      | nil => rfl
      | cons p t =>
        exfalso
        have hmem : ("tracy-linux-" ++ p.1) ∈ (jobsBeforeRelease b l tag).map Prod.fst := by
          unfold jobsBeforeRelease
          rw [mem_keys_addDocJobs]
          right
          exact ⟨p, by rw [hl]; simp, rfl⟩
        rw [h] at hmem
        simp at hmem
  · rintro ⟨hb, hl⟩
    unfold jobsBeforeRelease addDocJobs
    rw [hb, hl]
    simp

/-! ### Claim theorems: the combined jobs mapping -/

/-- C2: the release job is appended under the fixed key `create-release` as
the last entry, its `needs` equals exactly the ordered list of job keys
present before it, that list is empty exactly when both documents contribute
zero jobs, and every non-release entry keeps the `needs` of the input job it
came from (so no job gains a dependency on `create-release`). -/
theorem C2_release_job (b l : Option Workflow) (tag : String) (rel : Job) :
    ((generate_combined_workflow b l tag rel).jobs
      = jobsBeforeRelease b l tag
        ++ [("create-release",
            { rel with needs := some ((jobsBeforeRelease b l tag).map Prod.fst) })])
    ∧ ((jobsBeforeRelease b l tag).map Prod.fst = []
        ↔ jobsOfDoc b = [] ∧ jobsOfDoc l = [])
    ∧ (∀ kj ∈ (generate_combined_workflow b l tag rel).jobs, kj.1 ≠ "create-release" →
        ∃ p, (p ∈ jobsOfDoc b ∨ p ∈ jobsOfDoc l) ∧ kj.2.needs = p.2.needs) := by
  refine ⟨generate_jobs_eq b l tag rel, jobsBeforeRelease_keys_nil_iff b l tag, ?_⟩
  intro kj hkj hne
  rw [generate_jobs_eq b l tag rel] at hkj
  rcases List.mem_append.mp hkj with h | h
  · unfold jobsBeforeRelease at h
    rcases mem_addDocJobs _ _ _ _ _ _ h with h0 | ⟨p, hp, rfl⟩
    · rcases mem_addDocJobs _ _ _ _ _ _ h0 with h1 | ⟨p, hp, rfl⟩
      · simp at h1
      · exact ⟨p, Or.inl hp, (transformJob_fields tag ("" ++ p.1) p.2).2.2.2.1⟩
    · exact ⟨p, Or.inr hp, (transformJob_fields tag ("linux-" ++ p.1) p.2).2.2.2.1⟩
  · simp only [List.mem_singleton] at h
    rw [h] at hne
    exact absurd rfl hne

/-- Witness for C2 at a concrete one-job document. -/
theorem C2_witness :
    ((jobsBeforeRelease (some oneJobWf) none "v1").map Prod.fst = []
      ↔ jobsOfDoc (some oneJobWf) = [] ∧ jobsOfDoc none = [])
    ∧ ∃ p, (p ∈ jobsOfDoc (some oneJobWf) ∨ p ∈ jobsOfDoc none)
        ∧ (("tracy-alpha", emptyJob) : String × Job).2.needs = p.2.needs := by
  have h := C2_release_job (some oneJobWf) none "v1" emptyJob
  exact ⟨h.2.1, h.2.2 ("tracy-alpha", emptyJob) (by decide) (by decide)⟩

/-- C1 counterexample: with internally-unique job names, a `build.yml` job
`linux-gcc` and a `linux.yml` job `gcc` are renamed to the same combined key
`tracy-linux-gcc`, so one of the two jobs is lost: the combined document has
only that one non-release key instead of two. -/
theorem C1_counterexample :
    ("tracy-" ++ "linux-gcc" : String) = "tracy-linux-" ++ "gcc"
    ∧ (generate_combined_workflow (some ⟨some [("linux-gcc", emptyJob)]⟩)
        (some ⟨some [("gcc", emptyJob)]⟩) "v0.12.2" emptyJob).jobs.map Prod.fst
      = ["tracy-linux-gcc", "create-release"] :=
  ⟨by decide, by decide⟩

/-- C1 amended: provided additionally that no `build.yml` job name equals
`linux-` followed by a `linux.yml` job name, the prefixed renaming is
injective across the two documents and every input job appears under its own
distinct key in the combined document, followed by `create-release`. -/
theorem C1_prefixed_keys_amended (bJs lJs : List (String × Job)) (tag : String) (rel : Job)
    (hb : (bJs.map Prod.fst).Nodup) (hl : (lJs.map Prod.fst).Nodup)
    (hx : ∀ n ∈ bJs.map Prod.fst, ∀ m ∈ lJs.map Prod.fst, n ≠ "linux-" ++ m) :
    ((generate_combined_workflow (some ⟨some bJs⟩) (some ⟨some lJs⟩) tag rel).jobs.map
        Prod.fst
      = bJs.map (fun p => "tracy-" ++ p.1) ++ lJs.map (fun p => "tracy-linux-" ++ p.1)
          ++ ["create-release"])
    ∧ ((generate_combined_workflow (some ⟨some bJs⟩) (some ⟨some lJs⟩) tag rel).jobs.map
        Prod.fst).Nodup := by
  have hndb : (bJs.map (fun p => "tracy-" ++ p.1)).Nodup := by
    have he : bJs.map (fun p => "tracy-" ++ p.1)
        = (bJs.map Prod.fst).map (fun n => "tracy-" ++ n) := by
      rw [List.map_map]
      rfl
    rw [he]
    exact List.Nodup.map (strAppend_left_inj "tracy-") hb
  have hndl : (lJs.map (fun p => "tracy-linux-" ++ p.1)).Nodup := by
    have he : lJs.map (fun p => "tracy-linux-" ++ p.1)
        = (lJs.map Prod.fst).map (fun n => "tracy-linux-" ++ n) := by
      rw [List.map_map]
      rfl
    rw [he]
    exact List.Nodup.map (strAppend_left_inj "tracy-linux-") hl
  have hinner : addDocJobs "tracy-" "" tag bJs []
      = bJs.map (fun p => ("tracy-" ++ p.1, transformJob tag ("" ++ p.1) p.2)) := by
    have h := addDocJobs_eq_append "tracy-" "" tag bJs [] (by simp) hndb
    simpa using h
  have hfresh2 : ∀ p ∈ lJs, "tracy-linux-" ++ p.1
      ∉ (bJs.map (fun p => ("tracy-" ++ p.1, transformJob tag ("" ++ p.1) p.2))).map
          Prod.fst := by
    intro p hp hmem
    rw [List.map_map] at hmem
    rcases List.mem_map.mp hmem with ⟨q, hq, heq⟩
    have heq' : "tracy-" ++ q.1 = "tracy-" ++ ("linux-" ++ p.1) := by
      rw [← tracyLinuxKey]
      exact heq
    exact hx q.1 (List.mem_map_of_mem _ hq) p.1 (List.mem_map_of_mem _ hp)
      (strAppend_left_cancel heq')
  have houter : jobsBeforeRelease (some ⟨some bJs⟩) (some ⟨some lJs⟩) tag
      = bJs.map (fun p => ("tracy-" ++ p.1, transformJob tag ("" ++ p.1) p.2))
        ++ lJs.map (fun p => ("tracy-linux-" ++ p.1, transformJob tag ("linux-" ++ p.1) p.2)) := by
    show addDocJobs "tracy-linux-" "linux-" tag lJs (addDocJobs "tracy-" "" tag bJs []) = _
    rw [hinner]
    exact addDocJobs_eq_append "tracy-linux-" "linux-" tag lJs _ hfresh2 hndl
  have hjobs := generate_jobs_eq (some ⟨some bJs⟩) (some ⟨some lJs⟩) tag rel
  rw [houter] at hjobs
  have hkeys : (generate_combined_workflow (some ⟨some bJs⟩) (some ⟨some lJs⟩) tag
        rel).jobs.map Prod.fst
      = bJs.map (fun p => "tracy-" ++ p.1) ++ lJs.map (fun p => "tracy-linux-" ++ p.1)
          ++ ["create-release"] := by
    rw [hjobs]
    simp only [List.map_append, List.map_map, List.map_cons, List.map_nil]
    rfl
  have hdisj : List.Disjoint (bJs.map (fun p => "tracy-" ++ p.1))
      (lJs.map (fun p => "tracy-linux-" ++ p.1)) := by
    intro a ha hb'
    rcases List.mem_map.mp ha with ⟨q, hq, rfl⟩
    rcases List.mem_map.mp hb' with ⟨r, hr, heq⟩
    rw [tracyLinuxKey] at heq
    exact hx q.1 (List.mem_map_of_mem _ hq) r.1 (List.mem_map_of_mem _ hr)
      (strAppend_left_cancel heq.symm)
  have hdisj2 : List.Disjoint
      (bJs.map (fun p => "tracy-" ++ p.1) ++ lJs.map (fun p => "tracy-linux-" ++ p.1))
      ["create-release"] := by
    intro a ha hb'
    simp only [List.mem_singleton] at hb'
    subst hb'
    rcases List.mem_append.mp ha with h | h
    · rcases List.mem_map.mp h with ⟨q, _, heq⟩
      exact tracyKey_ne_create q.1 heq
    · rcases List.mem_map.mp h with ⟨q, _, heq⟩
      rw [tracyLinuxKey] at heq
      exact tracyKey_ne_create ("linux-" ++ q.1) heq
  refine ⟨hkeys, ?_⟩
  rw [hkeys, List.append_assoc]
  refine List.Nodup.append hndb (List.Nodup.append hndl (by simp) ?_) ?_
  · intro a ha hb'
    exact hdisj2 (List.mem_append_right _ ha) hb'
  · intro a ha hb'
    rcases List.mem_append.mp hb' with h | h
    · exact hdisj ha h
    · exact hdisj2 (List.mem_append_left _ ha) h

/-- Witness for the amended C1 statement at concrete one-job documents. -/
theorem C1_witness :
    ((generate_combined_workflow (some ⟨some [("win", emptyJob)]⟩)
        (some ⟨some [("gcc", emptyJob)]⟩) "v1" emptyJob).jobs.map Prod.fst).Nodup
    ∧ (generate_combined_workflow (some ⟨some [("win", emptyJob)]⟩)
        (some ⟨some [("gcc", emptyJob)]⟩) "v1" emptyJob).jobs.map Prod.fst
      = ["tracy-win", "tracy-linux-gcc", "create-release"] := by
  have h := C1_prefixed_keys_amended [("win", emptyJob)] [("gcc", emptyJob)] "v1" emptyJob
    (by decide) (by decide) (by decide)
  exact ⟨h.2, by decide⟩

/-- C7: artifact-upload insertion is a deterministic function of `runs-on`,
the matrix `os` list, the job name and the `container` field: a
`windows-latest` job gets `tracy-windows` with path `**/*.exe`, a matrix
`macos-13` job gets `tracy-macos` with the four-pattern path, a job named
`build-linux-gcc` with no matrix gets `tracy-linux`, a job that already has
an upload step gets nothing, and an unclassified job gets nothing and raises
no error. -/
theorem C7_artifact_upload_cases (j : Job) (jobName : String) :
    (∀ ss, j.steps = some ss → hasUploadStep ss = false →
        j.runsOn = some "windows-latest" →
        add_artifact_upload j jobName
          = { j with steps := some (ss ++ [uploadStep "tracy-windows" "**/*.exe"]) })
    ∧ (∀ ss, j.steps = some ss → hasUploadStep ss = false → j.runsOn = none →
        j.matrixOs = ["macos-13"] →
        add_artifact_upload j jobName
          = { j with steps := some (ss ++ [uploadStep "tracy-macos" unixArtifactPath]) })
    ∧ (∀ ss, j.steps = some ss → hasUploadStep ss = false → j.runsOn = none →
        j.matrixOs = [] →
        add_artifact_upload j "build-linux-gcc"
          = { j with steps := some (ss ++ [uploadStep "tracy-linux" unixArtifactPath]) })
    ∧ (∀ ss, j.steps = some ss → hasUploadStep ss = true →
        add_artifact_upload j jobName = j)
    ∧ (∀ ss, j.steps = some ss → hasUploadStep ss = false →
        classifyArtifact j jobName = none → add_artifact_upload j jobName = j) := by
  refine ⟨?_, ?_, ?_, ?_, ?_⟩
  · intro ss hss hU hro
    have hw : strContains (strToLower "windows-latest") "windows" = true := by decide
    have hC : classifyArtifact j jobName = some ("tracy-windows", "**/*.exe") := by
      simp [classifyArtifact, hro, hw]
    unfold add_artifact_upload
    rw [hss]
    simp [hU, hC]
  · intro ss hss hU hro hmx
    have w0 : strContains (strToLower "") "windows" = false := by decide
    have w1 : strContains (strToLower (pyStrList ["macos-13"])) "windows" = false := by
      decide
    have m0 : strContains (strToLower "") "macos" = false := by decide
    have m1 : strContains (strToLower (pyStrList ["macos-13"])) "macos" = true := by decide
    have hC : classifyArtifact j jobName = some ("tracy-macos", unixArtifactPath) := by
      simp [classifyArtifact, hro, hmx, w0, w1, m0, m1]
    unfold add_artifact_upload
    rw [hss]
    simp [hU, hC]
  · intro ss hss hU hro hmx
    have w0 : strContains (strToLower "") "windows" = false := by decide
    have w2 : strContains (strToLower (pyStrList [])) "windows" = false := by decide
    have m0 : strContains (strToLower "") "macos" = false := by decide
    have m2 : strContains (strToLower (pyStrList [])) "macos" = false := by decide
    have l1 : strContains (strToLower "build-linux-gcc") "linux" = true := by decide
    have hC : classifyArtifact j "build-linux-gcc" = some ("tracy-linux", unixArtifactPath) := by
      simp [classifyArtifact, hro, hmx, w0, w2, m0, m2, l1]
    unfold add_artifact_upload
    rw [hss]
    simp [hU, hC]
  · intro ss hss hU
    unfold add_artifact_upload
    rw [hss]
    simp [hU]
  · intro ss hss hU hC
    unfold add_artifact_upload
    rw [hss]
    simp [hU, hC]

/-- Witness for C7 at concrete Windows, macOS, Linux, already-uploading and
unclassified jobs. -/
theorem C7_witness :
    add_artifact_upload winJob "win"
      = { winJob with steps := some [uploadStep "tracy-windows" "**/*.exe"] }
    ∧ add_artifact_upload macJob "mac"
      = { macJob with steps := some [uploadStep "tracy-macos" unixArtifactPath] }
    ∧ add_artifact_upload bareStepsJob "build-linux-gcc"
      = { bareStepsJob with steps := some [uploadStep "tracy-linux" unixArtifactPath] }
    ∧ add_artifact_upload upJob "any" = upJob
    ∧ add_artifact_upload bareStepsJob "build" = bareStepsJob :=
  ⟨(C7_artifact_upload_cases winJob "win").1 [] rfl rfl rfl,
    (C7_artifact_upload_cases macJob "mac").2.1 [] rfl rfl rfl rfl,
    (C7_artifact_upload_cases bareStepsJob "anything").2.2.1 [] rfl rfl rfl rfl,
    (C7_artifact_upload_cases upJob "any").2.2.2.1 [uploadStep "x" "y"] rfl (by decide),
    (C7_artifact_upload_cases bareStepsJob "build").2.2.2.2 [] rfl rfl (by decide)⟩

/-! ### Claim theorems: the effect trace of `main` -/

/-- C3 counterexample: with both fetches failing the run does exit with code
1, but a git mutation — creation of the build branch — has already been
issued before the abort, contradicting the claim that the abort precedes any
git mutation. -/
theorem C3_counterexample :
    (main_run argsC3 gitC3 none none).2 = 1
    ∧ Ev.gitCheckoutNewBranch "build-v0.12.2" ∈ (main_run argsC3 gitC3 none none).1 :=
  ⟨by decide, by decide⟩

/-- C3 amended: when zero workflow documents are fetched the run exits with
code 1, writes no combined-workflow file, and issues no commit and no push;
branch creation and deletion, however, have already been issued during
branch setup before the fetch. -/
theorem C3_abort_amended (args : Args) (git : GitState) :
    (main_run args git none none).2 = 1
    ∧ writeCombinedEvents (main_run args git none none).1 = []
    ∧ commitEvents (main_run args git none none).1 = []
    ∧ pushEvents (main_run args git none none).1 = [] := by
  rcases args with ⟨tag, np, rem⟩
  rcases git with ⟨rb, lb, uc⟩
  cases np <;> cases rb <;> cases lb <;>
    simp [main_run, fetch_tracy_workflows_events, writeCombinedEvents, commitEvents,
      pushEvents, List.filter_append]

/-- C4 (code bug): with flag value `upstream` the fetch, the remote-branch
existence check and the remote-branch deletion all address `upstream`, but
the final push of the build branch is issued against the literal `origin` —
the only `git push <remote> <branch>` event of the successful run targets
`origin`. -/
theorem C4_push_ignores_remote_flag :
    (main_run argsC4 gitC4 (some ⟨none⟩) none).2 = 0
    ∧ Ev.gitFetch "upstream" ∈ (main_run argsC4 gitC4 (some ⟨none⟩) none).1
    ∧ Ev.gitLsRemoteHeads "upstream" "build-v0.12.2"
        ∈ (main_run argsC4 gitC4 (some ⟨none⟩) none).1
    ∧ Ev.gitPushDelete "upstream" "build-v0.12.2"
        ∈ (main_run argsC4 gitC4 (some ⟨none⟩) none).1
    ∧ pushEvents (main_run argsC4 gitC4 (some ⟨none⟩) none).1
      = [Ev.gitPush "origin" "build-v0.12.2"] :=
  ⟨by decide, by decide, by decide, by decide, by decide⟩

end TracyBuilds
